import Mathlib

/-!
Verification development for the `raid-status.py` RAID monitoring tool.

The Python source is embedded shallowly over `List Char` strings:
pure string manipulation is translated directly, and the points where
the program talks to the outside world (filesystem checks, vendor-tool
subprocesses) are abstracted as explicit parameters (an exit code, a
captured output text, a support predicate).
-/

namespace RaidStatus

/-- Strings are modelled as lists of characters. -/
abbrev Str := List Char

/-- Characters removed by Python's `str.strip()` (whitespace). -/
def isWS (c : Char) : Bool := c.isWhitespace

/-- Python `str.strip()`: drop whitespace from both ends. -/
def pstrip (s : Str) : Str :=
  ((s.dropWhile isWS).reverse.dropWhile isWS).reverse

/-- Python `str.split(sep)` for a one-character separator: splits at every
occurrence, always returns a non-empty list, `""` yields `[""]`. -/
def splitChar (sep : Char) : Str → List Str
  | [] => [[]]
  | c :: rest =>
    match splitChar sep rest with
    | [] => [[]]
    | s :: ss => if c = sep then [] :: s :: ss else (c :: s) :: ss

/-- Python `str.split(sep, 1)` restricted to the informative case: `none`
when the separator does not occur (Python would return the one-element
list `[s]`), `some (before, after)` split at the first occurrence. -/
def split1 (sep : Char) : Str → Option (Str × Str)
  | [] => none
  | c :: rest =>
    if c = sep then some ([], rest)
    else (split1 sep rest).map (fun p => (c :: p.1, p.2))

/-- The two `IndexError` sites inside `parse_by_colon`: indexing `[1]` on the
one-element split of a colon-free line that passed the key test, and
indexing `[0]` on the empty comprehension result. -/
inductive ParseErr
  | valueIndex
  | fieldMissing
deriving DecidableEq, Repr

/-- One pass of the list comprehension in `parse_by_colon`: for each line,
Python evaluates the filter `i.split(':', 1)[0].strip() == field` (on a
colon-free line the whole trimmed line is compared) and, when it holds,
the element `i.split(':', 1)[1].strip()` — which raises on a colon-free
line. The comprehension runs over every line before any indexing. -/
def pbcLines (field : Str) : List Str → Except ParseErr (List Str)
  | [] => .ok []
  | line :: rest =>
    match split1 ':' line with
    | some kv =>
      if pstrip kv.1 = field then
        (pbcLines field rest).map (fun vs => pstrip kv.2 :: vs)
      else pbcLines field rest
    | none =>
      if pstrip line = field then .error .valueIndex
      else pbcLines field rest

instance {ε α : Type} [DecidableEq ε] [DecidableEq α] : DecidableEq (Except ε α)
  | .error a, .error b =>
    match decEq a b with
    | isTrue h => isTrue (congrArg Except.error h)
    | isFalse h => isFalse (fun hh => h (Except.error.inj hh))
  | .error _, .ok _ => isFalse (fun h => Except.noConfusion h)
  | .ok _, .error _ => isFalse (fun h => Except.noConfusion h)
  | .ok a, .ok b =>
    match decEq a b with
    | isTrue h => isTrue (congrArg Except.ok h)
    | isFalse h => isFalse (fun hh => h (Except.ok.inj hh))

/-- `parse_by_colon(string_to_parse, field_to_extract)` from the source:
the comprehension over the newline-split input, then `[0]` on its result
(raising when it is empty). -/
def parse_by_colon (string_to_parse field_to_extract : Str) : Except ParseErr Str :=
  match pbcLines field_to_extract (splitChar '\n' string_to_parse) with
  | .error e => .error e
  | .ok [] => .error .fieldMissing
  | .ok (v :: _) => .ok v

example : parse_by_colon "Name : MyArray\nState : clean\n".toList "State".toList
    = .ok "clean".toList := by decide

example : parse_by_colon "Name : MyArray\nState : clean\n".toList "Missing".toList
    = .error .fieldMissing := by decide

/-! ## Backends, registry and factory -/

/-- The three concrete `RAID` subclasses defined in the source. -/
inductive Backend
  | megaraid_sas
  | ssa
  | md_raid
deriving DecidableEq, Repr

/-- The `slug` class attribute of each subclass. -/
def Backend.slug : Backend → Str
  | .megaraid_sas => "megaraid_sas".toList
  | .ssa => "ssa".toList
  | .md_raid => "md_raid".toList

/-- An array instance: a concrete subclass together with its `name`
attribute (set by `RAID.__init__`). -/
structure Inst where
  backend : Backend
  name : Str
deriving DecidableEq, Repr

/-- `str(x)` via `RAID.__str__`: the handle string `slug ++ "," ++ name`. -/
def handleStr (x : Inst) : Str := x.backend.slug ++ ',' :: x.name

/-- The ways instance construction in `RAID.create` can fail: an
unregistered slug (`ValueError` raised by `create`), a remaining-field
count other than one (`TypeError` from calling `__init__(self, name)` with
the wrong number of positional arguments), or — for `MegaRAID_SAS` only —
a `name` whose colon-split does not unpack into exactly two variables
(`ValueError` from `adapter, logical_disk = self.name.split(':')`). -/
inductive CreateErr
  | unknownBackend (slug : Str)
  | ctorArity
  | ctorUnpack
deriving DecidableEq, Repr

/-- Calling the subclass constructor with the remaining handle fields as
positional arguments (`cls.__registry[slug](*data)`). All three
constructors take exactly one argument `name`; `MegaRAID_SAS.__init__`
additionally unpacks `name.split(':')` into two variables. -/
def ctor (b : Backend) : List Str → Except CreateErr Inst
  | [name] =>
    match b with
    | .megaraid_sas =>
      if (splitChar ':' name).length = 2 then .ok ⟨b, name⟩ else .error .ctorUnpack
    | .ssa => .ok ⟨b, name⟩
    | .md_raid => .ok ⟨b, name⟩
  | _ => .error .ctorArity

/-- The `RAID.__registry` dictionary after the three import-time
`register()` calls, in insertion order: `MegaRAID_SAS.register()`,
`SSA.register()`, `MD_RAID.register()`. -/
def registry : List (Str × Backend) :=
  [(Backend.megaraid_sas.slug, .megaraid_sas),
   (Backend.ssa.slug, .ssa),
   (Backend.md_raid.slug, .md_raid)]

/-- Dictionary lookup `cls.__registry[slug]` (with the `in` membership test). -/
def lookupReg (s : Str) : Option Backend :=
  (registry.find? (fun p => p.1 = s)).map (fun p => p.2)

/-- `RAID.create(serialized_name)`: comma-split, pop the slug, look it up
in the registry (raising `ValueError` when absent), then call the subclass
constructor with the remaining fields. `splitChar` never returns an empty
list, so the first branch is unreachable; it mirrors `data.pop(0)`. -/
def create (serialized_name : Str) : Except CreateErr Inst :=
  match splitChar ',' serialized_name with
  | [] => .error (.unknownBackend [])
  | s :: data =>
    match lookupReg s with
    | none => .error (.unknownBackend s)
    | some b => ctor b data

example : create "megaraid_sas,0:0".toList = .ok ⟨.megaraid_sas, "0:0".toList⟩ := by decide
example : create "unknown_slug,1".toList = .error (.unknownBackend "unknown_slug".toList) := by
  decide

/-! ## Base-class discovery (`RAID.discover`) -/

/-- The outside world as `RAID.discover` sees it: what each subclass's
`is_supported()` filesystem checks return, and what list its own
`discover()` (driven by vendor-tool subprocesses) returns. -/
structure DiscoverEnv where
  supported : Backend → Bool
  backendDiscover : Backend → List Inst

/-- `RAID.discover()` on the base class: iterate the registry in insertion
order, appending `rcls.discover()` for every subclass whose
`is_supported()` is true. -/
def RAID_discover (env : DiscoverEnv) : List Inst :=
  registry.foldl
    (fun discovered p =>
      if env.supported p.2 then discovered ++ env.backendDiscover p.2 else discovered)
    []

/-- `MegaRAID_SAS.discover()`: the megacli listing command's process exit
status is the count; the result synthesizes instances named `"0:i"`
(`"{}:{}".format(0, i)` for `i in range(raids_count)`). -/
def megaraid_discover (raids_count : Nat) : List Inst :=
  (List.range raids_count).map
    (fun i => ⟨.megaraid_sas, '0' :: ':' :: Nat.toDigits 10 i⟩)

example : megaraid_discover 3 =
    [⟨.megaraid_sas, "0:0".toList⟩, ⟨.megaraid_sas, "0:1".toList⟩,
     ⟨.megaraid_sas, "0:2".toList⟩] := by decide

/-! ## Status translation and stable names -/

/-- Python `dict.get(key, default)` over an association-list model of the
class-level `XLATE_STATUS` dictionaries. -/
def dictGetD (d : List (Str × Str)) (key default : Str) : Str :=
  match d.find? (fun p => p.1 = key) with
  | some p => p.2
  | none => default

/-- `SSA.XLATE_STATUS`. -/
def SSA_XLATE_STATUS : List (Str × Str) :=
  [("OK".toList, "Optimal".toList)]

/-- `MD_RAID.XLATE_STATUS`. -/
def MD_XLATE_STATUS : List (Str × Str) :=
  [("clean".toList, "Optimal".toList), ("active".toList, "Optimal".toList)]

/-- `SSA.status` as a function of the captured `ssacli ... show detail`
output text: extract the `"Status"` field, then
`XLATE_STATUS.get(status, status)`. -/
def ssa_status (detail : Str) : Except ParseErr Str :=
  (parse_by_colon detail "Status".toList).map
    (fun status => dictGetD SSA_XLATE_STATUS status status)

/-- `MD_RAID.status` as a function of the captured `mdadm --detail` output
text: extract the `"State"` field, then `XLATE_STATUS.get(status, status)`. -/
def md_status (detail : Str) : Except ParseErr Str :=
  (parse_by_colon detail "State".toList).map
    (fun status => dictGetD MD_XLATE_STATUS status status)

/-- `MD_RAID.stable_name` as a function of the captured `mdadm --detail`
output text: extract the `"Name"` field, then `.split(' ', 1)[0]`. -/
def md_stable_name (detail : Str) : Except ParseErr Str :=
  (parse_by_colon detail "Name".toList).map
    (fun v => match split1 ' ' v with
      | some p => p.1
      | none => v)

example : md_status "State : clean\n".toList = .ok "Optimal".toList := by decide
example : md_status "State : degraded\n".toList = .ok "degraded".toList := by decide
example : md_stable_name "Name : homehost:arrayname extra\n".toList
    = .ok "homehost:arrayname".toList := by decide

/-! ## Helper lemmas about splitting -/

theorem splitChar_ne_nil (sep : Char) (l : Str) : splitChar sep l ≠ [] := by
  induction l with
  | nil => simp [splitChar]
  | cons c rest ih =>
    simp only [splitChar]
    cases h : splitChar sep rest with
    | nil => simp
    | cons s ss =>
      by_cases hc : c = sep <;> simp [hc]

theorem splitChar_of_not_mem (sep : Char) (l : Str) (h : sep ∉ l) :
    splitChar sep l = [l] := by
  induction l with
  | nil => rfl
  | cons c rest ih =>
    have hc : ¬ c = sep := fun hcc => h (hcc ▸ List.mem_cons_self c rest)
    have hr : sep ∉ rest := fun hm => h (List.mem_cons_of_mem c hm)
    simp only [splitChar, ih hr]
    simp [hc]

theorem splitChar_append (sep : Char) (a b : Str) (h : sep ∉ a) :
    splitChar sep (a ++ sep :: b) = a :: splitChar sep b := by
  induction a with
  | nil =>
    simp only [List.nil_append, splitChar]
    cases hb : splitChar sep b with
    | nil => exact absurd hb (splitChar_ne_nil sep b)
    | cons s ss => simp
  | cons c a' ih =>
    have hc : ¬ c = sep := fun hcc => h (hcc ▸ List.mem_cons_self c a')
    have ha : sep ∉ a' := fun hm => h (List.mem_cons_of_mem c hm)
    simp only [List.cons_append, splitChar, List.append_eq]
    rw [ih ha]
    simp [hc]

/-! ## Claim theorems -/

/-- Claim C1: round-trip identity of handles. Any instance a backend can
legitimately produce has passed its own constructor (`h2`); when its name
contains no comma, `RAID.create(str(x))` rebuilds the very same instance:
same backend class, same name, hence same handle string. -/
theorem create_handleStr_roundtrip (x : Inst)
    (h1 : ',' ∉ x.name) (h2 : ctor x.backend [x.name] = .ok x) :
    create (handleStr x) = .ok x := by
  have hslug : ',' ∉ x.backend.slug := by cases x.backend <;> decide
  have hs : splitChar ',' (handleStr x) = x.backend.slug :: [x.name] := by
    rw [handleStr, splitChar_append ',' x.backend.slug x.name hslug,
      splitChar_of_not_mem ',' x.name h1]
  have hl : lookupReg x.backend.slug = some x.backend := by cases x.backend <;> decide
  rw [create.eq_def, hs]
  simp only [hl]
  exact h2

/-- Witness for C1 at the megaraid instance named `0:0`. -/
theorem create_handleStr_roundtrip_witness :
    ',' ∉ (Inst.mk .megaraid_sas "0:0".toList).name ∧
      ctor .megaraid_sas ["0:0".toList] = .ok ⟨.megaraid_sas, "0:0".toList⟩ ∧
      create (handleStr ⟨.megaraid_sas, "0:0".toList⟩) = .ok ⟨.megaraid_sas, "0:0".toList⟩ :=
  ⟨by decide, by decide,
    create_handleStr_roundtrip ⟨.megaraid_sas, "0:0".toList⟩ (by decide) (by decide)⟩

/-- The spec's description of `discoverAll()`: concatenate, in registration
order, the per-backend discovery lists of exactly the supported backends. -/
def discoverAll_spec (env : DiscoverEnv) : List Inst :=
  ((registry.filter (fun p => env.supported p.2)).map (fun p => env.backendDiscover p.2)).flatten

theorem foldl_discover (env : DiscoverEnv) (rl : List (Str × Backend)) (acc : List Inst) :
    rl.foldl
        (fun discovered p =>
          if env.supported p.2 then discovered ++ env.backendDiscover p.2 else discovered)
        acc
      = acc ++ ((rl.filter (fun p => env.supported p.2)).map
          (fun p => env.backendDiscover p.2)).flatten := by
  induction rl generalizing acc with
  | nil => simp
  | cons p rest ih =>
    by_cases hp : env.supported p.2 <;> simp [List.filter_cons, hp, ih]

/-- Claim C3: base-class `RAID.discover()` returns exactly the
concatenation of the supported backends' own `discover()` lists, in
registration order, and every element of the result comes from the
discovery list of a supported registered backend. -/
theorem RAID_discover_eq_spec (env : DiscoverEnv) :
    RAID_discover env = discoverAll_spec env ∧
      ∀ x ∈ RAID_discover env,
        ∃ p ∈ registry, env.supported p.2 = true ∧ x ∈ env.backendDiscover p.2 := by
  have heq : RAID_discover env = discoverAll_spec env := by
    rw [RAID_discover, discoverAll_spec, foldl_discover, List.nil_append]
  refine ⟨heq, ?_⟩
  intro x hx
  rw [heq, discoverAll_spec] at hx
  simp only [List.mem_flatten, List.mem_map, List.mem_filter] at hx
  obtain ⟨l, ⟨p, ⟨hpmem, hpsup⟩, hpl⟩, hxl⟩ := hx
  exact ⟨p, hpmem, hpsup, hpl ▸ hxl⟩

/-- A concrete environment for exercising `RAID_discover`: only the
`ssa` backend is supported and each backend would discover one array. -/
def envW : DiscoverEnv :=
  ⟨fun b => b = .ssa, fun b => [⟨b, "1:A".toList⟩]⟩

/-- Witness for C3 at the concrete environment `envW`. -/
theorem RAID_discover_eq_spec_witness :
    RAID_discover envW = discoverAll_spec envW ∧
      (∃ p ∈ registry, envW.supported p.2 = true ∧
        Inst.mk .ssa "1:A".toList ∈ envW.backendDiscover p.2) :=
  ⟨(RAID_discover_eq_spec envW).1,
    (RAID_discover_eq_spec envW).2 ⟨.ssa, "1:A".toList⟩ (by decide)⟩

/-- Claim C4: when the megacli listing command exits with status `n`,
`MegaRAID_SAS.discover()` returns exactly `n` instances, the `i`-th named
`"0:" ++ decimal i`, all of backend (slug) `megaraid_sas`; in particular
exit status `0` yields the empty list. -/
theorem megaraid_discover_spec (n i : Nat) (h : i < n) :
    (megaraid_discover n).length = n ∧
      megaraid_discover 0 = [] ∧
      (megaraid_discover n)[i]? = some ⟨.megaraid_sas, '0' :: ':' :: Nat.toDigits 10 i⟩ := by
  refine ⟨by simp [megaraid_discover], rfl, ?_⟩
  simp [megaraid_discover, List.getElem?_range, h]

/-- Witness for C4 at exit status 3, index 1. -/
theorem megaraid_discover_spec_witness :
    (megaraid_discover 3).length = 3 ∧
      megaraid_discover 0 = [] ∧
      (megaraid_discover 3)[1]? = some ⟨.megaraid_sas, '0' :: ':' :: Nat.toDigits 10 1⟩ :=
  megaraid_discover_spec 3 1 (by decide)

/-- Stated from the spec's Output Parser contract: the trimmed value of the
first line whose trimmed key (text before the first colon) equals the
field name, `none` when no line matches. -/
def extractField_spec (field : Str) : List Str → Option Str
  | [] => none
  | line :: rest =>
    match split1 ':' line with
    | some kv => if pstrip kv.1 = field then some (pstrip kv.2) else extractField_spec field rest
    | none => extractField_spec field rest

/-- When no colon-free line passes the key test, the comprehension
succeeds and its first element (if any) is the spec's first-match value. -/
theorem pbcLines_ok_of_no_bare_match (field : Str) (lines : List Str)
    (h : ∀ line ∈ lines, split1 ':' line = none → pstrip line ≠ field) :
    ∃ vs, pbcLines field lines = .ok vs ∧ vs.head? = extractField_spec field lines := by
  induction lines with
  | nil => exact ⟨[], rfl, rfl⟩
  | cons line rest ih =>
    have hrest : ∀ l ∈ rest, split1 ':' l = none → pstrip l ≠ field :=
      fun l hl => h l (List.mem_cons_of_mem line hl)
    obtain ⟨vs, hvs, hhead⟩ := ih hrest
    cases hsp : split1 ':' line with
    | some kv =>
      by_cases hk : pstrip kv.1 = field
      · exact ⟨pstrip kv.2 :: vs, by simp [pbcLines, hsp, hk, hvs, Except.map], by
          simp [extractField_spec, hsp, hk]⟩
      · exact ⟨vs, by simp [pbcLines, hsp, hk, hvs], by
          simpa [extractField_spec, hsp, hk] using hhead⟩
    | none =>
      have hk : ¬ pstrip line = field := h line (List.mem_cons_self line rest) hsp
      exact ⟨vs, by simp [pbcLines, hsp, hk, hvs], by
        simpa [extractField_spec, hsp] using hhead⟩

/-- Claim C2, amended: provided no colon-free line of the input passes the
key test, `parse_by_colon` returns the trimmed right-hand side of the first
line whose trimmed left side (before the first colon) equals the field
name, and fails with the missing-field IndexError when no line matches. -/
theorem parse_by_colon_spec (text field : Str)
    (h : ∀ line ∈ splitChar '\n' text, split1 ':' line = none → pstrip line ≠ field) :
    parse_by_colon text field =
      match extractField_spec field (splitChar '\n' text) with
      | some v => .ok v
      | none => .error .fieldMissing := by
  obtain ⟨vs, hvs, hhead⟩ := pbcLines_ok_of_no_bare_match field (splitChar '\n' text) h
  rw [parse_by_colon, hvs]
  cases vs with
  | nil => rw [← hhead]; rfl
  | cons v vs' => rw [← hhead]; rfl

/-- Witness for the amended C2 at the spec's own example text. -/
theorem parse_by_colon_spec_witness :
    (∀ line ∈ splitChar '\n' "Name : MyArray\nState : clean\n".toList,
        split1 ':' line = none → pstrip line ≠ "State".toList) ∧
      parse_by_colon "Name : MyArray\nState : clean\n".toList "State".toList =
        match extractField_spec "State".toList
            (splitChar '\n' "Name : MyArray\nState : clean\n".toList) with
        | some v => .ok v
        | none => .error .fieldMissing :=
  ⟨by decide, parse_by_colon_spec _ _ (by decide)⟩

/-- Counterexample to Claim C2 as stated: on the text whose first matching
line is `State : clean` but whose later line `State` is colon-free and also
passes the key test, the code raises the in-comprehension IndexError
instead of returning the first match's trimmed value `clean`. -/
theorem parse_by_colon_not_first_match :
    parse_by_colon "State : clean\nState".toList "State".toList = .error .valueIndex ∧
      parse_by_colon "State : clean\nState".toList "State".toList ≠ .ok "clean".toList := by
  decide

/-- Claim C9: an input on which `parse_by_colon` neither returns a value
nor fails with the missing-field lookup error: the first line whose
trimmed content equals the field name (`State`) has no colon, so the value
extraction inside the comprehension raises a distinct IndexError. -/
theorem parse_by_colon_bare_line_error :
    parse_by_colon "Other : x\nState".toList "State".toList = .error .valueIndex ∧
      (Except.error .valueIndex : Except ParseErr Str) ≠ .error .fieldMissing ∧
      (∀ v : Str, (Except.error .valueIndex : Except ParseErr Str) ≠ .ok v) := by
  refine ⟨by decide, by decide, ?_⟩
  intro v h
  exact Except.noConfusion h

/-! ## Status translation theorems -/

theorem dictGetD_md (raw : Str) :
    dictGetD MD_XLATE_STATUS raw raw =
      if raw = "clean".toList ∨ raw = "active".toList then "Optimal".toList else raw := by
  by_cases h1 : raw = "clean".toList
  · subst h1; decide
  · by_cases h2 : raw = "active".toList
    · subst h2; decide
    · have hf : (MD_XLATE_STATUS.find? (fun p => p.1 = raw)) = none := by
        rw [List.find?_eq_none]
        intro x hx
        simp only [MD_XLATE_STATUS, List.mem_cons, List.not_mem_nil, or_false] at hx
        rcases hx with rfl | rfl
        · simpa using fun e => h1 e.symm
        · simpa using fun e => h2 e.symm
      rw [dictGetD, hf]
      have hcond : ¬ (raw = "clean".toList ∨ raw = "active".toList) := by
        rintro (e | e)
        · exact h1 e
        · exact h2 e
      rw [if_neg hcond]

theorem dictGetD_ssa (raw : Str) :
    dictGetD SSA_XLATE_STATUS raw raw =
      if raw = "OK".toList then "Optimal".toList else raw := by
  by_cases h1 : raw = "OK".toList
  · subst h1; decide
  · have hf : (SSA_XLATE_STATUS.find? (fun p => p.1 = raw)) = none := by
      rw [List.find?_eq_none]
      intro x hx
      simp only [SSA_XLATE_STATUS, List.mem_cons, List.not_mem_nil, or_false] at hx
      rcases hx with rfl
      simpa using fun e => h1 e.symm
    rw [dictGetD, hf]
    rw [if_neg h1]

/-- Claim C5: `MD_RAID.status` maps raw `State` values `clean` and `active`
to the canonical `Optimal` and passes every other raw value through
unmodified (never coercing it to `Unknown`). -/
theorem md_status_translation (detail raw : Str)
    (h : parse_by_colon detail "State".toList = .ok raw) :
    md_status detail =
      .ok (if raw = "clean".toList ∨ raw = "active".toList then "Optimal".toList else raw) := by
  rw [md_status, h]
  simp only [Except.map]
  rw [dictGetD_md]

/-- Witness for C5: a `clean` detail text yields `Optimal`, a `degraded`
one yields the raw pass-through. -/
theorem md_status_translation_witness :
    (parse_by_colon "State : clean\n".toList "State".toList = .ok "clean".toList ∧
      md_status "State : clean\n".toList =
        .ok (if "clean".toList = "clean".toList ∨ "clean".toList = "active".toList
          then "Optimal".toList else "clean".toList)) ∧
      (parse_by_colon "State : degraded\n".toList "State".toList = .ok "degraded".toList ∧
        md_status "State : degraded\n".toList =
          .ok (if "degraded".toList = "clean".toList ∨ "degraded".toList = "active".toList
            then "Optimal".toList else "degraded".toList)) :=
  ⟨⟨by decide, md_status_translation _ _ (by decide)⟩,
    ⟨by decide, md_status_translation _ _ (by decide)⟩⟩

/-- Claim C8: `SSA.status` maps the raw `Status` value `OK` to the
canonical `Optimal` and passes every other raw value through unmodified
(never coercing it to `Unknown`). -/
theorem ssa_status_translation (detail raw : Str)
    (h : parse_by_colon detail "Status".toList = .ok raw) :
    ssa_status detail = .ok (if raw = "OK".toList then "Optimal".toList else raw) := by
  rw [ssa_status, h]
  simp only [Except.map]
  rw [dictGetD_ssa]

/-- Witness for C8: an `OK` detail text yields `Optimal`, a `Failed` one
yields the raw pass-through. -/
theorem ssa_status_translation_witness :
    (parse_by_colon "Status : OK\n".toList "Status".toList = .ok "OK".toList ∧
      ssa_status "Status : OK\n".toList =
        .ok (if "OK".toList = "OK".toList then "Optimal".toList else "OK".toList)) ∧
      (parse_by_colon "Status : Failed\n".toList "Status".toList = .ok "Failed".toList ∧
        ssa_status "Status : Failed\n".toList =
          .ok (if "Failed".toList = "OK".toList then "Optimal".toList else "Failed".toList)) :=
  ⟨⟨by decide, ssa_status_translation _ _ (by decide)⟩,
    ⟨by decide, ssa_status_translation _ _ (by decide)⟩⟩

/-! ## Stable name (Variant C) -/

theorem split1_fst (sep : Char) (l : Str) :
    (match split1 sep l with | some p => p.1 | none => l)
      = l.takeWhile (fun c => !(c == sep)) := by
  induction l with
  | nil => rfl
  | cons c rest ih =>
    by_cases hc : c = sep
    · subst hc
      simp [split1, List.takeWhile_cons]
    · rw [List.takeWhile_cons]
      cases hsp : split1 sep rest with
      | none =>
        rw [hsp] at ih
        simp only [split1, hc, if_false, hsp, Option.map_none]
        simp [hc, ← ih]
      | some p =>
        rw [hsp] at ih
        simp only [split1, hc, if_false, hsp, Option.map_some]
        simp [hc, ← ih]

/-- Claim C7, amended: `MD_RAID.stable_name` returns the part of the
extracted `Name` field value before the first space character; other
whitespace characters (such as a tab) do not delimit. -/
theorem md_stable_name_space_token (detail raw : Str)
    (h : parse_by_colon detail "Name".toList = .ok raw) :
    md_stable_name detail = .ok (raw.takeWhile (fun c => !(c == ' '))) := by
  rw [md_stable_name, h]
  simp only [Except.map]
  rw [split1_fst]

/-- Witness for the amended C7 at the spec's own example value. -/
theorem md_stable_name_space_token_witness :
    parse_by_colon "Name : homehost:arrayname extra\n".toList "Name".toList
        = .ok "homehost:arrayname extra".toList ∧
      md_stable_name "Name : homehost:arrayname extra\n".toList
        = .ok ("homehost:arrayname extra".toList.takeWhile (fun c => !(c == ' '))) :=
  ⟨by decide, md_stable_name_space_token _ _ (by decide)⟩

/-- Stated from the spec's words for C7: the first whitespace-delimited
token of a (stripped) field value. -/
def firstWsToken (s : Str) : Str := s.takeWhile (fun c => !(isWS c))

/-- Counterexample to Claim C7 as stated: on a `Name` value containing a
tab, the code keeps the tab and what follows (it splits only at a space
character), so the result is not the first whitespace-delimited token. -/
theorem md_stable_name_tab_cex :
    md_stable_name "Name : a\tb\n".toList = .ok "a\tb".toList ∧
      firstWsToken "a\tb".toList = "a".toList ∧
      ("a\tb".toList : Str) ≠ "a".toList := by
  decide

/-! ## Resolution errors and handle shape -/

theorem ctor_ne_unknownBackend (b : Backend) (d : List Str) (t : Str) :
    ctor b d ≠ .error (.unknownBackend t) := by
  match d with
  | [] => simp [ctor]
  | [name] =>
    cases b <;> simp only [ctor]
    · split <;> simp
    · simp
    · simp
  | n1 :: n2 :: tl => simp [ctor]

/-- Claim C6: `RAID.create` fails with the unknown-backend `ValueError`
exactly when the handle's first comma-separated field is not a registered
slug; for a registered slug it proceeds to the subclass constructor, which
can never produce an unknown-backend failure — support checking plays no
part in resolution. -/
theorem create_unknown_iff (serialized s : Str) (data : List Str)
    (h : splitChar ',' serialized = s :: data) :
    (lookupReg s = none ↔ create serialized = .error (.unknownBackend s)) ∧
      (∀ b, lookupReg s = some b → create serialized = ctor b data ∧
        ∀ d t, ctor b d ≠ .error (.unknownBackend t)) := by
  constructor
  · constructor
    · intro hn
      rw [create.eq_def, h]
      simp only [hn]
    · intro he
      cases hl : lookupReg s with
      | none => rfl
      | some b =>
        rw [create.eq_def, h] at he
        simp only [hl] at he
        exact absurd he (ctor_ne_unknownBackend b data s)
  · intro b hb
    refine ⟨?_, fun d t => ctor_ne_unknownBackend b d t⟩
    rw [create.eq_def, h]
    simp only [hb]

/-- Witness for C6 at the spec's example handle `unknown_slug,1`. -/
theorem create_unknown_iff_witness :
    splitChar ',' "unknown_slug,1".toList = "unknown_slug".toList :: ["1".toList] ∧
      ((lookupReg "unknown_slug".toList = none ↔
          create "unknown_slug,1".toList = .error (.unknownBackend "unknown_slug".toList)) ∧
        (∀ b, lookupReg "unknown_slug".toList = some b →
          create "unknown_slug,1".toList = ctor b ["1".toList] ∧
            ∀ d t, ctor b d ≠ .error (.unknownBackend t))) :=
  ⟨by decide, create_unknown_iff _ _ _ (by decide)⟩

/-- Claim C10: the shape checks a handle faces at construction, for a
registered slug: any remaining-field count other than one fails with the
arity error; for `megaraid_sas` a single name field must additionally
split at colons into exactly two parts, otherwise the unpacking fails; for
`ssa` and `md_raid` any single name field is accepted. -/
theorem ctor_shape (b : Backend) (data : List Str) (name : Str) :
    (data.length ≠ 1 → ctor b data = .error .ctorArity) ∧
      (b = .megaraid_sas → (splitChar ':' name).length ≠ 2 →
        ctor b [name] = .error .ctorUnpack) ∧
      (b = .megaraid_sas → (splitChar ':' name).length = 2 →
        ctor b [name] = .ok ⟨b, name⟩) ∧
      ((b = .ssa ∨ b = .md_raid) → ctor b [name] = .ok ⟨b, name⟩) := by
  refine ⟨?_, ?_, ?_, ?_⟩
  · intro hlen
    match data with
    | [] => rfl
    | [n] => exact absurd rfl hlen
    | n1 :: n2 :: tl => rfl
  · intro hb hsp
    subst hb
    simp [ctor, hsp]
  · intro hb hsp
    subst hb
    simp [ctor, hsp]
  · intro hb
    rcases hb with hb | hb <;> subst hb <;> rfl

/-- Witness for C10: a two-field megaraid handle tail hits the arity
error, a colon-free megaraid name hits the unpack error, well-shaped names
construct, and `ssa`/`md_raid` accept any single name field. -/
theorem ctor_shape_witness :
    ctor .megaraid_sas ["0".toList, "1".toList] = .error .ctorArity ∧
      ctor .megaraid_sas ["abc".toList] = .error .ctorUnpack ∧
      ctor .megaraid_sas ["0:0".toList] = .ok ⟨.megaraid_sas, "0:0".toList⟩ ∧
      ctor .ssa ["anything at all".toList] = .ok ⟨.ssa, "anything at all".toList⟩ ∧
      ctor .md_raid ["0".toList] = .ok ⟨.md_raid, "0".toList⟩ :=
  ⟨(ctor_shape .megaraid_sas ["0".toList, "1".toList] "0".toList).1 (by decide),
    (ctor_shape .megaraid_sas [] "abc".toList).2.1 rfl (by decide),
    (ctor_shape .megaraid_sas [] "0:0".toList).2.2.1 rfl (by decide),
    (ctor_shape .ssa [] "anything at all".toList).2.2.2 (Or.inl rfl),
    (ctor_shape .md_raid [] "0".toList).2.2.2 (Or.inr rfl)⟩

end RaidStatus
